import Mathlib

/-!
# Verification of Roberto's core utilities

A shallow embedding of the parts of the `roberto` task runner that the
specification talks about:

* `parse_git_describe` and its helpers (`src/roberto/utils.py`),
* `need_deployment` (`src/roberto/utils.py`),
* `compute_req_hash` together with a concrete SHA-256 (`src/roberto/utils.py`),
* the package-defaulting loop of `RobertoConfig._finalize` (`src/roberto/config.py`),
* the task dependency graph declared in `src/roberto/tasks.py`, executed by a
  scheduler modelled from the specification (the execution engine itself lives
  in the third-party `invoke` package and is not part of the repository).

Python strings are modelled as `List Char`; only ASCII-relevant behaviour of
`str.strip`, `str.split`, `str.isnumeric` and the two regular expressions
`(\d+)(.*)`, `a\d+`, `b\d+` is modelled (the repository only ever feeds git
describe output to these functions).
-/

namespace Roberto

instance exceptDecEq {ε α : Type} [DecidableEq ε] [DecidableEq α] :
    DecidableEq (Except ε α)
  | .error a, .error b =>
    if h : a = b then .isTrue (by rw [h]) else .isFalse (by simp [h])
  | .error _, .ok _ => .isFalse (by simp)
  | .ok _, .error _ => .isFalse (by simp)
  | .ok a, .ok b =>
    if h : a = b then .isTrue (by rw [h]) else .isFalse (by simp [h])

/-- Whitespace characters removed by Python's `str.strip()` (ASCII fragment). -/
def pyIsSpace (c : Char) : Bool :=
  c = ' ' || c = '\t' || c = '\n' || c = '\r' || c = '\x0b' || c = '\x0c'

/-- Python `str.strip()`: drop leading and trailing whitespace. -/
def pyStrip (l : List Char) : List Char :=
  ((l.dropWhile pyIsSpace).reverse.dropWhile pyIsSpace).reverse

/-- Python `str.split(sep)` for a one-character separator: always returns at
least one chunk, empty chunks included (`"".split('-') == [""]`). -/
def pySplitChar (c : Char) : List Char → List (List Char)
  | [] => [[]]
  | x :: xs =>
    if x = c then
      [] :: pySplitChar c xs
    else
      match pySplitChar c xs with
      | [] => [[x]]
      | y :: ys => (x :: y) :: ys

/-- Python `str.isnumeric()` (ASCII fragment): non-empty and all digits. -/
def isnumeric (l : List Char) : Bool :=
  !l.isEmpty && l.all Char.isDigit

/-- `re.fullmatch(r'(\d+)(.*)', s)`: the greedy digit prefix and the rest.
Fails when `s` does not start with a digit, or when the rest contains a
newline (which `.` does not match). -/
def pyMatchPatch (l : List Char) : Option (List Char × List Char) :=
  let digits := l.takeWhile Char.isDigit
  let rest := l.dropWhile Char.isDigit
  if digits.isEmpty then none
  else if rest.contains '\n' then none
  else some (digits, rest)

/-- `re.fullmatch(r'c0\d+', s) is not None`: `c0` followed by one or more
digits, nothing else. Used with `'a'` and `'b'` for the release flags. -/
def fullmatchLetterDigits (c0 : Char) : List Char → Bool
  | [] => false
  | c :: rest => c = c0 && !rest.isEmpty && rest.all Char.isDigit

/-- The `TagError` exception: carries the message and the offending tag. -/
structure TagErr where
  message : List Char
  tag : List Char
deriving Repr, DecidableEq

/-- The dictionary returned by `parse_git_describe`. -/
structure VersionInfo where
  describe : List Char
  tag : List Char
  tag_version : List Char
  tag_soversion : List Char
  tag_version_major : List Char
  tag_version_minor : List Char
  tag_version_patch : List Char
  tag_version_suffix : List Char
  tag_stable : Bool
  tag_test : Bool
  tag_dev : Bool
  tag_release : Bool
  deploy_label : Option (List Char)
deriving Repr, DecidableEq

/-- Validation of the tag part (`version_words[0]`) of a describe string:
the three-component check, the `(\d+)(.*)` match on the last component and the
numeric checks for minor and major, in source order.  Returns
`(major, minor, patch, suffix)`. -/
def parseTag (tag : List Char) : Except TagErr (List Char × List Char × List Char × List Char) :=
  match pySplitChar '.' tag with
  | [major, minor, lastPart] =>
    match pyMatchPatch lastPart with
    | none => .error ⟨"The patch version must start with a number.".data, tag⟩
    | some (patch, suffix) =>
      if isnumeric minor then
        if isnumeric major then
          .ok (major, minor, patch, suffix)
        else
          .error ⟨"The major version must be numeric.".data, tag⟩
      else
        .error ⟨"The minor version must be numeric.".data, tag⟩
  | _ => .error ⟨"A version tag must at least contain two dots.".data, tag⟩

/-- `suffix += '.post' + version_words[1]` when a commits-since-tag segment is
present (`len(version_words) > 1`). -/
def postPart (version_words : List (List Char)) : List Char :=
  match version_words with
  | _ :: w1 :: _ => ".post".data ++ w1
  | _ => []

/-- Construction of the `version_info` dictionary from the pieces. -/
def mkVersionInfo (git_describe tag major minor patch suffix : List Char) : VersionInfo where
  describe := git_describe
  tag := tag
  tag_version := major ++ '.' :: (minor ++ '.' :: (patch ++ suffix))
  tag_soversion := major ++ '.' :: minor
  tag_version_major := major
  tag_version_minor := minor
  tag_version_patch := patch
  tag_version_suffix := suffix
  tag_stable := suffix.isEmpty
  tag_test := fullmatchLetterDigits 'b' suffix
  tag_dev := fullmatchLetterDigits 'a' suffix
  tag_release :=
    suffix.isEmpty || fullmatchLetterDigits 'b' suffix || fullmatchLetterDigits 'a' suffix
  deploy_label :=
    if suffix.isEmpty then some "main".data
    else if fullmatchLetterDigits 'b' suffix then some "test".data
    else if fullmatchLetterDigits 'a' suffix then some "dev".data
    else none

/-- `parse_git_describe` over `List Char`: strip, split on `'-'`, validate the
tag, extend the suffix with the `.post` segment, build the result. -/
def parseCore (input : List Char) : Except TagErr VersionInfo :=
  match parseTag ((pySplitChar '-' (pyStrip input)).headD []) with
  | .error e => .error e
  | .ok (major, minor, patch, suffix) =>
    .ok (mkVersionInfo (pyStrip input) ((pySplitChar '-' (pyStrip input)).headD [])
      major minor patch (suffix ++ postPart (pySplitChar '-' (pyStrip input))))

/-- `parse_git_describe` on an ordinary string. -/
def parse_git_describe (s : String) : Except TagErr VersionInfo :=
  parseCore s.data

example : parse_git_describe "1.2.3" = .ok
    { describe := "1.2.3".data, tag := "1.2.3".data, tag_version := "1.2.3".data,
      tag_soversion := "1.2".data, tag_version_major := "1".data,
      tag_version_minor := "2".data, tag_version_patch := "3".data,
      tag_version_suffix := [], tag_stable := true, tag_test := false,
      tag_dev := false, tag_release := true, deploy_label := some "main".data } := by
  decide

example : parse_git_describe "0.18.1b1" = .ok
    { describe := "0.18.1b1".data, tag := "0.18.1b1".data, tag_version := "0.18.1b1".data,
      tag_soversion := "0.18".data, tag_version_major := "0".data,
      tag_version_minor := "18".data, tag_version_patch := "1".data,
      tag_version_suffix := "b1".data, tag_stable := false, tag_test := true,
      tag_dev := false, tag_release := true, deploy_label := some "test".data } := by
  decide

example : parse_git_describe "2.7.0-3-foo" = .ok
    { describe := "2.7.0-3-foo".data, tag := "2.7.0".data,
      tag_version := "2.7.0.post3".data, tag_soversion := "2.7".data,
      tag_version_major := "2".data, tag_version_minor := "7".data,
      tag_version_patch := "0".data, tag_version_suffix := ".post3".data,
      tag_stable := false, tag_test := false, tag_dev := false,
      tag_release := false, deploy_label := none } := by
  decide

example : (parse_git_describe "1.2").isOk = false := by decide

/-! ## `need_deployment` (src/roberto/utils.py)

The function reads three values from the invoke context: `ctx.deploy_binary`,
`ctx.deploy_noarch` and `ctx.git.deploy_label`; they form `DeployCtx` here.
The `prefix` parameter of the Python function only feeds the printed
diagnostics and has no influence on the returned value. -/

/-- The slice of the invoke context read by `need_deployment`. -/
structure DeployCtx where
  deploy_binary : Bool
  deploy_noarch : Bool
  deploy_label : Option (List Char)
deriving Repr, DecidableEq

/-- Python `ctx.git.deploy_label in deploy_labels` for a string list:
a `None` label is never a member. -/
def labelMem : Option (List Char) → List (List Char) → Bool
  | some lbl, deploy_labels => deploy_labels.contains lbl
  | none, _ => false

/-- `need_deployment(ctx, prefix, binary, deploy_labels)`. -/
def need_deployment (ctx : DeployCtx) (binary : Bool)
    (deploy_labels : List (List Char)) : Bool :=
  if binary && !ctx.deploy_binary then false
  else if !binary && !ctx.deploy_noarch then false
  else if !labelMem ctx.deploy_label deploy_labels then false
  else true

/-! ## SHA-256 and `compute_req_hash` (src/roberto/utils.py)

`hashlib.sha256` is modelled concretely: FIPS 180-4 SHA-256 over byte lists,
with 32-bit words as `Nat` reduced modulo `2 ^ 32`. -/

/-- Addition modulo `2 ^ 32`. -/
def add32 (a b : Nat) : Nat := (a + b) % 4294967296

/-- Rotate a 32-bit word right by `n` bit positions. -/
def rotr32 (n a : Nat) : Nat :=
  Nat.lor (a >>> n) ((a <<< (32 - n)) % 4294967296)

/-- SHA-256 `Ch(e, f, g)`; the complement is `xor` with `2 ^ 32 - 1`. -/
def shaCh (e f g : Nat) : Nat :=
  Nat.xor (Nat.land e f) (Nat.land (Nat.xor e 4294967295) g)

/-- SHA-256 `Maj(a, b, c)`. -/
def shaMaj (a b c : Nat) : Nat :=
  Nat.xor (Nat.land a b) (Nat.xor (Nat.land a c) (Nat.land b c))

/-- SHA-256 small sigma 0. -/
def sig0 (x : Nat) : Nat := Nat.xor (rotr32 7 x) (Nat.xor (rotr32 18 x) (x >>> 3))

/-- SHA-256 small sigma 1. -/
def sig1 (x : Nat) : Nat := Nat.xor (rotr32 17 x) (Nat.xor (rotr32 19 x) (x >>> 10))

/-- SHA-256 big sigma 0. -/
def bsig0 (x : Nat) : Nat := Nat.xor (rotr32 2 x) (Nat.xor (rotr32 13 x) (rotr32 22 x))

/-- SHA-256 big sigma 1. -/
def bsig1 (x : Nat) : Nat := Nat.xor (rotr32 6 x) (Nat.xor (rotr32 11 x) (rotr32 25 x))

/-- The eight-word SHA-256 state. -/
structure Sha8 where
  a : Nat
  b : Nat
  c : Nat
  d : Nat
  e : Nat
  f : Nat
  g : Nat
  h : Nat
deriving Repr, DecidableEq

/-- The 64 round constants of FIPS 180-4 (decimal, row-major). -/
def shaK : List Nat :=
  [1116352408, 1899447441, 3049323471, 3921009573, 961987163, 1508970993, 2453635748,
   2870763221, 3624381080, 310598401, 607225278, 1426881987, 1925078388, 2162078206,
   2614888103, 3248222580, 3835390401, 4022224774, 264347078, 604807628, 770255983,
   1249150122, 1555081692, 1996064986, 2554220882, 2821834349, 2952996808, 3210313671,
   3336571891, 3584528711, 113926993, 338241895, 666307205, 773529912, 1294757372,
   1396182291, 1695183700, 1986661051, 2177026350, 2456956037, 2730485921, 2820302411,
   3259730800, 3345764771, 3516065817, 3600352804, 4094571909, 275423344, 430227734,
   506948616, 659060556, 883997877, 958139571, 1322822218, 1537002063, 1747873779,
   1955562222, 2024104815, 2227730452, 2361852424, 2428436474, 2756734187, 3204031479,
   3329325298]

/-- The initial state of FIPS 180-4 (decimal). -/
def shaInit : Sha8 :=
  ⟨1779033703, 3144134277, 1013904242, 2773480762,
   1359893119, 2600822924, 528734635, 1541459225⟩

/-- One SHA-256 compression round for a `(key, scheduled word)` pair. -/
def shaRound (st : Sha8) (kw : Nat × Nat) : Sha8 :=
  let t1 := add32 st.h (add32 (bsig1 st.e) (add32 (shaCh st.e st.f st.g) (add32 kw.1 kw.2)))
  let t2 := add32 (bsig0 st.a) (shaMaj st.a st.b st.c)
  ⟨add32 t1 t2, st.a, st.b, st.c, add32 st.d t1, st.e, st.f, st.g⟩

/-- Big-endian packing of bytes into 32-bit words. -/
def bytesToWords : List Nat → List Nat
  | b0 :: b1 :: b2 :: b3 :: rest =>
    (((b0 * 256 + b1) * 256 + b2) * 256 + b3) :: bytesToWords rest
  | _ => []

/-- Extend the 16 message words by `n` scheduled words. -/
def extendSchedule : Nat → List Nat → List Nat
  | 0, ws => ws
  | n + 1, ws =>
    let len := ws.length
    let next := add32 (add32 (sig1 (ws.getD (len - 2) 0)) (ws.getD (len - 7) 0))
      (add32 (sig0 (ws.getD (len - 15) 0)) (ws.getD (len - 16) 0))
    extendSchedule n (ws ++ [next])

/-- Split a byte list into 64-byte blocks. -/
def chunks64 : List Nat → List (List Nat)
  | [] => []
  | b :: bs => ((b :: bs).take 64) :: chunks64 (bs.drop 63)
termination_by l => l.length
decreasing_by simp [List.length_drop]; omega

/-- The 8-byte big-endian encoding of the bit length. -/
def lengthBytes64 (n : Nat) : List Nat :=
  [n / 2 ^ 56 % 256, n / 2 ^ 48 % 256, n / 2 ^ 40 % 256, n / 2 ^ 32 % 256,
   n / 2 ^ 24 % 256, n / 2 ^ 16 % 256, n / 2 ^ 8 % 256, n % 256]

/-- SHA-256 padding: `0x80`, zeros to 56 mod 64, then the bit length. -/
def shaPad (msg : List Nat) : List Nat :=
  msg ++ 128 :: (List.replicate ((55 + 64 - msg.length % 64) % 64) 0 ++ lengthBytes64 (8 * msg.length))

/-- SHA-256 compression of a single 64-byte block. -/
def compressBlock (st : Sha8) (block : List Nat) : Sha8 :=
  let w := extendSchedule 48 (bytesToWords block)
  let t := (shaK.zip w).foldl shaRound st
  ⟨add32 st.a t.a, add32 st.b t.b, add32 st.c t.c, add32 st.d t.d,
   add32 st.e t.e, add32 st.f t.f, add32 st.g t.g, add32 st.h t.h⟩

/-- SHA-256 of a byte list. -/
def sha256 (msg : List Nat) : Sha8 :=
  (chunks64 (shaPad msg)).foldl compressBlock shaInit

/-- The sixteen lowercase hex digits, as used by `hexdigest()`. -/
def hexDigit (n : Nat) : Char :=
  match n with
  | 0 => '0'
  | 1 => '1'
  | 2 => '2'
  | 3 => '3'
  | 4 => '4'
  | 5 => '5'
  | 6 => '6'
  | 7 => '7'
  | 8 => '8'
  | 9 => '9'
  | 10 => 'a'
  | 11 => 'b'
  | 12 => 'c'
  | 13 => 'd'
  | 14 => 'e'
  | 15 => 'f'
  | _ => '0'

/-- Eight hex characters of one 32-bit word, most significant nibble first. -/
def wordToHex (w : Nat) : List Char :=
  [hexDigit (w / 2 ^ 28 % 16), hexDigit (w / 2 ^ 24 % 16), hexDigit (w / 2 ^ 20 % 16),
   hexDigit (w / 2 ^ 16 % 16), hexDigit (w / 2 ^ 12 % 16), hexDigit (w / 2 ^ 8 % 16),
   hexDigit (w / 2 ^ 4 % 16), hexDigit (w % 16)]

/-- `hashlib.sha256(bytes).hexdigest()`. -/
def sha256hex (msg : List Nat) : List Char :=
  let st := sha256 msg
  wordToHex st.a ++ wordToHex st.b ++ wordToHex st.c ++ wordToHex st.d ++
  wordToHex st.e ++ wordToHex st.f ++ wordToHex st.g ++ wordToHex st.h

/-- Python `str.encode('utf-8')` for one character. -/
def utf8Encode (c : Char) : List Nat :=
  if c.toNat < 128 then [c.toNat]
  else if c.toNat < 2048 then [192 + c.toNat / 64, 128 + c.toNat % 64]
  else if c.toNat < 65536 then
    [224 + c.toNat / 4096, 128 + c.toNat / 64 % 64, 128 + c.toNat % 64]
  else
    [240 + c.toNat / 262144, 128 + c.toNat / 4096 % 64, 128 + c.toNat / 64 % 64,
      128 + c.toNat % 64]

/-- Python `str.encode('utf-8')` for a string. -/
def encodeStr (l : List Char) : List Nat := (l.map utf8Encode).flatten

/-- A directory entry as seen by `glob(os.path.flatten(recipe_dir, "*"))`:
either a regular file with its byte content, or anything else (a
subdirectory, a fifo, ...), which `os.path.isfile` rejects. -/
inductive FsEntry where
  | file (content : List Nat) : FsEntry
  | nonfile : FsEntry
deriving Repr, DecidableEq

/-- The bytes `compute_req_hash` feeds to the hasher for one glob entry:
file contents, nothing for a non-file entry. -/
def entryBytes : FsEntry → List Nat
  | .file content => content
  | .nonfile => []

/-- The bytes hashed for one recipe directory, in glob order. -/
def dirBytes (entries : List FsEntry) : List Nat := (entries.map entryBytes).flatten

/-- The full byte stream `compute_req_hash` feeds to `hashlib.sha256`:
the UTF-8 encoded conda packages, then the regular files of each recipe
directory, then the UTF-8 encoded pip packages, all concatenated with no
separators.  A recipe directory is modelled as its ordered list of glob
entries. -/
def reqStream (conda_packages : List (List Char)) (recipe_dirs : List (List FsEntry))
    (pip_packages : List (List Char)) : List Nat :=
  (conda_packages.map encodeStr).flatten ++
    ((recipe_dirs.map dirBytes).flatten ++ (pip_packages.map encodeStr).flatten)

/-- `compute_req_hash(conda_packages, recipe_dirs, pip_packages)`. -/
def compute_req_hash (conda_packages : List (List Char)) (recipe_dirs : List (List FsEntry))
    (pip_packages : List (List Char)) : List Char :=
  sha256hex (reqStream conda_packages recipe_dirs pip_packages)

/-- Recognizer for lowercase hexadecimal characters. -/
def isHexChar (c : Char) : Bool := c.isDigit || ('a' ≤ c && c ≤ 'f')

/-! ## Package defaulting in `RobertoConfig._finalize` (src/roberto/config.py)

The finalization loop over `self.project.packages` touches only the `path`
and `name` keys; `Option` models key absence in the package dictionary. -/

/-- The keys of a package dictionary that `_finalize` can read or write,
`none` when the key is absent.  Other keys (`conda_name`, `kind`, ...) are
never touched by `_finalize`. -/
structure RawPackage where
  path : Option (List Char)
  name : Option (List Char)
  tools : Option (List (List Char))
deriving Repr, DecidableEq

instance : Inhabited RawPackage := ⟨⟨none, none, none⟩⟩

/-- The body of the `for package in self.project.packages` loop in
`RobertoConfig._finalize`: default `path` to `'.'` and `name` to the project
name when the keys are missing. -/
def finalizePackage (projectName : List Char) (package : RawPackage) : RawPackage :=
  let package1 := if package.path.isNone then { package with path := some ['.'] } else package
  if package1.name.isNone then { package1 with name := some projectName } else package1

/-- The whole package loop of `RobertoConfig._finalize`. -/
def finalizePackages (projectName : List Char) (packages : List RawPackage) :
    List RawPackage :=
  packages.map (finalizePackage projectName)

/-! ## The task graph (src/roberto/tasks.py) and its scheduler

The `@task(...)` decorators in `src/roberto/tasks.py` declare the graph
below.  The engine that runs it is `invoke`'s executor, which is not part of
the repository, so the scheduler itself is modelled from the specification. -/

/-- The tasks declared in `src/roberto/tasks.py`. -/
inductive RoTask where
  | sanitize_git
  | install_conda
  | setup_conda_env
  | install_requirements
  | write_version
  | lint_static
  | build_inplace
  | test_inplace
  | upload_coverage
  | lint_dynamic
  | build_docs
  | upload_docs_git
  | build_packages
  | deploy
  | nuclear
  | quality
  | robot
deriving Repr, DecidableEq, Fintype

/-- The prerequisite lists of the `@task(...)` decorators, in declaration
order. -/
def roPrereqs : RoTask → List RoTask
  | .sanitize_git => []
  | .install_conda => []
  | .setup_conda_env => [.install_conda]
  | .install_requirements => [.setup_conda_env]
  | .write_version => []
  | .lint_static => [.install_requirements, .sanitize_git, .write_version]
  | .build_inplace => [.install_requirements, .sanitize_git, .write_version]
  | .test_inplace => [.build_inplace]
  | .upload_coverage => [.test_inplace]
  | .lint_dynamic => [.build_inplace]
  | .build_docs => [.install_requirements, .build_inplace, .write_version]
  | .upload_docs_git => [.install_requirements, .build_docs]
  | .build_packages => [.install_requirements, .write_version]
  | .deploy => [.install_requirements, .build_packages]
  | .nuclear => [.setup_conda_env]
  | .quality => [.lint_static, .test_inplace, .upload_coverage, .lint_dynamic, .build_docs]
  | .robot => [.quality, .upload_docs_git, .deploy]

/-- Modelled from the spec: the task graph scheduler of §4.5, whose
implementation (the `invoke` executor) is not part of the repository — only
the task declarations with their prerequisite lists are.  Requesting a task
first drives its prerequisites depth-first, left-to-right in declaration
order; a completed task is re-requested as a no-op; re-encountering a task
that is still running (its own transitive prerequisite) is a cycle and fails
immediately (`none`).  `fuel` bounds the recursion depth and `done` is the
execution order so far, each task's body appended after its prerequisites
completed. -/
def schedule {T : Type} [DecidableEq T] (g : T → List T) :
    Nat → List T → List T → T → Option (List T)
  | 0, _, _, _ => none
  | fuel + 1, visiting, done, t =>
    if t ∈ done then some done
    else if t ∈ visiting then none
    else
      match (g t).foldlM (fun acc p => schedule g fuel (t :: visiting) acc p) done with
      | none => none
      | some done2 => some (done2 ++ [t])

/-- One run of the scheduler on the roberto task graph, starting from a fresh
state; fuel 32 is ample for a 17-task graph. -/
def roRun (t : RoTask) : Option (List RoTask) :=
  schedule roPrereqs 32 [] [] t

/-- Checks an execution order: every task's prerequisites are all executed
before the task itself, given the initially completed tasks `done`. -/
def execOrderOk (done : List RoTask) : List RoTask → Bool
  | [] => true
  | t :: rest => (roPrereqs t).all (fun p => done.contains p) && execOrderOk (done ++ [t]) rest

/-! ## Small observers used only to state theorems -/

/-- Whether a parse result is the raised `TagError`. -/
def raisesTagError : Except TagErr VersionInfo → Bool
  | .error _ => true
  | .ok _ => false

/-- The first character is a decimal digit. -/
def startsWithDigit : List Char → Bool
  | [] => false
  | c :: _ => c.isDigit

/-- The malformedness conditions named by the spec for a tag: not exactly
three dot-separated components, a last component that does not start with a
digit, or a non-numeric major or minor component. -/
def claimedMalformed (tag : List Char) : Bool :=
  decide ((pySplitChar '.' tag).length ≠ 3) ||
  !startsWithDigit ((pySplitChar '.' tag).getLastD []) ||
  !isnumeric ((pySplitChar '.' tag).getD 0 []) ||
  !isnumeric ((pySplitChar '.' tag).getD 1 [])

/-- Forget the `describe` field, which echoes the raw input. -/
def eraseDescribe (v : VersionInfo) : VersionInfo := { v with describe := [] }

/-! ## Helper lemmas about the parser -/

/-- A successful parse is the `mkVersionInfo` of a successful tag validation,
with the `.post` extension of the suffix. -/
theorem parseCore_ok (l : List Char) (info : VersionInfo) (h : parseCore l = .ok info) :
    ∃ major minor patch suffix,
      parseTag ((pySplitChar '-' (pyStrip l)).headD []) = .ok (major, minor, patch, suffix) ∧
      info = mkVersionInfo (pyStrip l) ((pySplitChar '-' (pyStrip l)).headD [])
        major minor patch (suffix ++ postPart (pySplitChar '-' (pyStrip l))) := by
  unfold parseCore at h
  split at h
  · exact absurd h (by simp)
  · rename_i major minor patch suffix heq
    injection h with h
    exact ⟨major, minor, patch, suffix, heq, h.symm⟩

/-- A failed tag validation makes the whole parse fail with the same error. -/
theorem parseCore_error (l : List Char) (e : TagErr)
    (h : parseTag ((pySplitChar '-' (pyStrip l)).headD []) = .error e) :
    parseCore l = .error e := by
  unfold parseCore
  rw [h]

/-- `a\d+` and `b\d+` cannot both fully match the same suffix. -/
theorem fullmatch_not_both (s : List Char) :
    ¬(fullmatchLetterDigits 'b' s = true ∧ fullmatchLetterDigits 'a' s = true) := by
  rintro ⟨hb, ha⟩
  cases s with
  | nil => simp [fullmatchLetterDigits] at hb
  | cons c rest =>
    simp [fullmatchLetterDigits] at hb ha
    rw [hb.1.1] at ha
    simp at ha

/-- An empty suffix matches neither `a\d+` nor `b\d+`. -/
theorem fullmatch_empty (c0 : Char) (s : List Char) (h : s.isEmpty = true) :
    fullmatchLetterDigits c0 s = false := by
  cases s with
  | nil => rfl
  | cons c rest => simp at h

/-- C2 helper: the classification properties of a constructed result. -/
theorem mkVersionInfo_classification (d t major minor patch suffix : List Char) :
    (mkVersionInfo d t major minor patch suffix).tag_stable
        = (mkVersionInfo d t major minor patch suffix).tag_version_suffix.isEmpty ∧
    (mkVersionInfo d t major minor patch suffix).tag_test
        = fullmatchLetterDigits 'b' (mkVersionInfo d t major minor patch suffix).tag_version_suffix ∧
    (mkVersionInfo d t major minor patch suffix).tag_dev
        = fullmatchLetterDigits 'a' (mkVersionInfo d t major minor patch suffix).tag_version_suffix := by
  exact ⟨rfl, rfl, rfl⟩

/-- A successful `(\d+)(.*)` match means the input starts with a digit. -/
theorem pyMatchPatch_startsWithDigit (l : List Char) (p : List Char × List Char)
    (h : pyMatchPatch l = some p) : startsWithDigit l = true := by
  unfold pyMatchPatch at h
  cases l with
  | nil => simp at h
  | cons c cs =>
    by_cases hd : c.isDigit
    · simp [startsWithDigit, hd]
    · exfalso
      simp [List.takeWhile_cons, hd] at h

/-- Any of the spec's malformedness conditions makes the tag validation
fail. -/
theorem parseTag_error_of_malformed (tag : List Char) (h : claimedMalformed tag = true) :
    ∃ e, parseTag tag = .error e := by
  unfold parseTag
  split
  · rename_i major minor lastPart heq
    rw [claimedMalformed, heq] at h
    simp at h
    cases hm : pyMatchPatch lastPart with
    | none =>
      exact ⟨⟨"The patch version must start with a number.".data, tag⟩, by simp [hm]⟩
    | some p =>
      obtain ⟨patch, sfx⟩ := p
      have hsw := pyMatchPatch_startsWithDigit lastPart _ hm
      by_cases hminor : isnumeric minor = true
      · by_cases hmajor : isnumeric major = true
        · exfalso
          simp [hsw, hminor, hmajor] at h
        · exact ⟨⟨"The major version must be numeric.".data, tag⟩,
            by simp [hm, hminor, hmajor]⟩
      · exact ⟨⟨"The minor version must be numeric.".data, tag⟩, by simp [hm, hminor]⟩
  · exact ⟨_, rfl⟩

/-- C2: for every describe string accepted by `parse_git_describe`, the
stable/test/dev flags are exactly the empty / `b<digits>` / `a<digits>`
full-match tests on the final suffix, `tag_release` is their disjunction,
the deploy label is `main`/`test`/`dev`/`None` accordingly, and exactly one
of the four classifications {stable, test, dev, non-release} holds. -/
theorem parse_git_describe_classification (l : List Char) (info : VersionInfo)
    (h : parseCore l = .ok info) :
    info.tag_stable = info.tag_version_suffix.isEmpty ∧
    info.tag_test = fullmatchLetterDigits 'b' info.tag_version_suffix ∧
    info.tag_dev = fullmatchLetterDigits 'a' info.tag_version_suffix ∧
    info.tag_release = (info.tag_stable || info.tag_test || info.tag_dev) ∧
    info.deploy_label = (if info.tag_stable then some "main".data
      else if info.tag_test then some "test".data
      else if info.tag_dev then some "dev".data
      else none) ∧
    ((if info.tag_stable then 1 else 0) + (if info.tag_test then 1 else 0) +
      (if info.tag_dev then 1 else 0) + (if info.tag_release then 0 else 1)) = 1 := by
  obtain ⟨major, minor, patch, suffix, -, rfl⟩ := parseCore_ok l info h
  refine ⟨rfl, rfl, rfl, rfl, rfl, ?_⟩
  set s := suffix ++ postPart (pySplitChar '-' (pyStrip l)) with hs
  simp only [mkVersionInfo]
  by_cases he : s.isEmpty = true
  · simp [he, fullmatch_empty 'b' s he, fullmatch_empty 'a' s he]
  · simp only [Bool.not_eq_true] at he
    by_cases hb : fullmatchLetterDigits 'b' s = true
    · by_cases ha : fullmatchLetterDigits 'a' s = true
      · exact absurd ⟨hb, ha⟩ (fullmatch_not_both s)
      · simp only [Bool.not_eq_true] at ha
        simp [he, hb, ha]
    · simp only [Bool.not_eq_true] at hb
      by_cases ha : fullmatchLetterDigits 'a' s = true
      · simp [he, hb, ha]
      · simp only [Bool.not_eq_true] at ha
        simp [he, hb, ha]

/-- C3: a commits-since-tag segment (second `'-'`-separated word) is appended
to the suffix as `.post<segment>` before classification, and classification
is a full match on the extended suffix: `15.13.11a9-10` is non-release with
no deploy label. -/
theorem parse_git_describe_post_segment :
    (∀ (l : List Char) (info : VersionInfo) (w0 w1 : List Char) (ws : List (List Char)),
      parseCore l = .ok info →
      pySplitChar '-' (pyStrip l) = w0 :: w1 :: ws →
      ∃ major minor patch suffix0,
        parseTag w0 = .ok (major, minor, patch, suffix0) ∧
        info.tag_version_suffix = suffix0 ++ (".post".data ++ w1)) ∧
    parse_git_describe "15.13.11a9-10" = .ok
      { describe := "15.13.11a9-10".data, tag := "15.13.11a9".data,
        tag_version := "15.13.11a9.post10".data, tag_soversion := "15.13".data,
        tag_version_major := "15".data, tag_version_minor := "13".data,
        tag_version_patch := "11".data, tag_version_suffix := "a9.post10".data,
        tag_stable := false, tag_test := false, tag_dev := false,
        tag_release := false, deploy_label := none } := by
  constructor
  · intro l info w0 w1 ws h hsplit
    obtain ⟨major, minor, patch, suffix, htag, rfl⟩ := parseCore_ok l info h
    rw [hsplit] at htag
    refine ⟨major, minor, patch, suffix, by simpa using htag, ?_⟩
    simp [mkVersionInfo, hsplit, postPart]
  · decide

/-- C4: a tag that does not have exactly three dot-separated components, or
whose last component does not start with a digit, or whose major or minor
component is not purely numeric, raises `TagError`; in particular the five
malformed inputs from the test suite do. -/
theorem parse_git_describe_raises :
    (∀ l : List Char, claimedMalformed ((pySplitChar '-' (pyStrip l)).headD []) = true →
      raisesTagError (parseCore l) = true) ∧
    raisesTagError (parse_git_describe "1.2") = true ∧
    raisesTagError (parse_git_describe "0.0.0.1") = true ∧
    raisesTagError (parse_git_describe "0.0.foo") = true ∧
    raisesTagError (parse_git_describe "0.foo.0") = true ∧
    raisesTagError (parse_git_describe "foo.0.0") = true := by
  refine ⟨?_, by decide, by decide, by decide, by decide, by decide⟩
  intro l h
  obtain ⟨e, he⟩ := parseTag_error_of_malformed _ h
  rw [parseCore_error l e he]
  rfl

/-- Witness: the classification of `0.18.1b1`. -/
theorem parse_git_describe_classification_witness :
    ∃ info : VersionInfo, parseCore "0.18.1b1".data = .ok info ∧
      info.tag_test = fullmatchLetterDigits 'b' info.tag_version_suffix ∧
      ((if info.tag_stable then 1 else 0) + (if info.tag_test then 1 else 0) +
        (if info.tag_dev then 1 else 0) + (if info.tag_release then 0 else 1)) = 1 := by
  have h : parseCore "0.18.1b1".data = .ok
      { describe := "0.18.1b1".data, tag := "0.18.1b1".data, tag_version := "0.18.1b1".data,
        tag_soversion := "0.18".data, tag_version_major := "0".data,
        tag_version_minor := "18".data, tag_version_patch := "1".data,
        tag_version_suffix := "b1".data, tag_stable := false, tag_test := true,
        tag_dev := false, tag_release := true, deploy_label := some "test".data } := by
    decide
  have hcl := parse_git_describe_classification "0.18.1b1".data _ h
  exact ⟨_, h, hcl.2.1, hcl.2.2.2.2.2⟩

/-- Witness: the `.post` extension on `2.7.0-3-foo`. -/
theorem parse_git_describe_post_segment_witness :
    ∃ info : VersionInfo, parseCore "2.7.0-3-foo".data = .ok info ∧
      ∃ major minor patch suffix0,
        parseTag "2.7.0".data = .ok (major, minor, patch, suffix0) ∧
        info.tag_version_suffix = suffix0 ++ (".post".data ++ "3".data) := by
  have h : parseCore "2.7.0-3-foo".data = .ok
      { describe := "2.7.0-3-foo".data, tag := "2.7.0".data,
        tag_version := "2.7.0.post3".data, tag_soversion := "2.7".data,
        tag_version_major := "2".data, tag_version_minor := "7".data,
        tag_version_patch := "0".data, tag_version_suffix := ".post3".data,
        tag_stable := false, tag_test := false, tag_dev := false,
        tag_release := false, deploy_label := none } := by
    decide
  have hsplit : pySplitChar '-' (pyStrip "2.7.0-3-foo".data)
      = "2.7.0".data :: "3".data :: ["foo".data] := by decide
  exact ⟨_, h, parse_git_describe_post_segment.1 _ _ _ _ _ h hsplit⟩

/-- Witness: `1.2` raises. -/
theorem parse_git_describe_raises_witness :
    raisesTagError (parseCore "1.2".data) = true :=
  parse_git_describe_raises.1 "1.2".data (by decide)

/-! ## List and string helper lemmas for the remaining parser claims -/

/-- Python `split` never returns an empty list of chunks. -/
theorem pySplitChar_ne_nil (c : Char) (l : List Char) : pySplitChar c l ≠ [] := by
  induction l with
  | nil => simp [pySplitChar]
  | cons x xs ih =>
    simp only [pySplitChar]
    split
    · simp
    · split
      · simp
      · simp

/-- If the first chunk of a split is the whole string, the separator does
not occur. -/
theorem not_mem_of_headD_split (c : Char) (l : List Char)
    (h : (pySplitChar c l).headD [] = l) : c ∉ l := by
  induction l with
  | nil => simp
  | cons x xs ih =>
    simp only [pySplitChar] at h
    by_cases hx : x = c
    · rw [if_pos hx] at h
      simp at h
    · rw [if_neg hx] at h
      cases hs : pySplitChar c xs with
      | nil => exact absurd hs (pySplitChar_ne_nil c xs)
      | cons y ys =>
        rw [hs] at h
        simp at h
        have : c ∉ xs := by
          apply ih
          rw [hs]
          simpa using h
        simp [hx, this]
        intro hcx
        exact hx hcx.symm

/-- Splitting a string that does not contain the separator yields one
chunk. -/
theorem pySplitChar_no_sep (c : Char) (l : List Char) (h : c ∉ l) :
    pySplitChar c l = [l] := by
  induction l with
  | nil => rfl
  | cons x xs ih =>
    have hx : ¬(x = c) := by
      intro he
      exact h (by simp [he])
    have hxs : c ∉ xs := fun hm => h (List.mem_cons_of_mem _ hm)
    simp only [pySplitChar, if_neg hx, ih hxs]

/-- Splitting around the first separator occurrence. -/
theorem pySplitChar_append (c : Char) (a b : List Char) (h : c ∉ a) :
    pySplitChar c (a ++ c :: b) = a :: pySplitChar c b := by
  induction a with
  | nil => simp [pySplitChar]
  | cons x xs ih =>
    have hx : ¬(x = c) := by
      intro he
      exact h (by simp [he])
    have hxs : c ∉ xs := fun hm => h (List.mem_cons_of_mem _ hm)
    simp only [List.cons_append, pySplitChar, if_neg hx]
    rw [show xs.append (c :: b) = xs ++ c :: b from rfl, ih hxs]

/-- `dropWhile` is the identity when the head fails the predicate. -/
theorem dropWhile_eq_self_of_head (p : Char → Bool) (l : List Char)
    (h : ∀ x, l.head? = some x → p x = false) : l.dropWhile p = l := by
  cases l with
  | nil => rfl
  | cons x xs => simp [List.dropWhile_cons, h x rfl]

/-- `dropWhile` never lengthens a list. -/
theorem dropWhile_length_le (p : Char → Bool) (l : List Char) :
    (l.dropWhile p).length ≤ l.length := by
  induction l with
  | nil => simp
  | cons x xs ih =>
    simp only [List.dropWhile_cons]
    split
    · exact Nat.le_trans ih (Nat.le_succ _)
    · exact Nat.le_refl _

/-- `dropWhile` preserving the length is the identity. -/
theorem dropWhile_eq_self_of_length (p : Char → Bool) (l : List Char)
    (h : (l.dropWhile p).length = l.length) : l.dropWhile p = l := by
  cases l with
  | nil => rfl
  | cons x xs =>
    simp only [List.dropWhile_cons] at h ⊢
    by_cases hp : p x = true
    · rw [if_pos hp] at h
      exfalso
      have := dropWhile_length_le p xs
      simp at h
      omega
    · rw [if_neg hp]

/-- A string equal to its own strip drops no leading whitespace. -/
theorem dropWhile_eq_self_of_strip (l : List Char) (h : pyStrip l = l) :
    l.dropWhile pyIsSpace = l := by
  have h1 := congrArg List.length h
  simp only [pyStrip, List.length_reverse] at h1
  have h2 := dropWhile_length_le pyIsSpace (l.dropWhile pyIsSpace).reverse
  have h3 := dropWhile_length_le pyIsSpace l
  simp only [List.length_reverse] at h2
  exact dropWhile_eq_self_of_length _ _ (by omega)

/-- The head of a stripped-stable string is not whitespace. -/
theorem head_not_space_of_strip (l : List Char) (h : pyStrip l = l) :
    ∀ x, l.head? = some x → pyIsSpace x = false := by
  intro x hx
  have hd := dropWhile_eq_self_of_strip l h
  cases l with
  | nil => simp at hx
  | cons y ys =>
    simp at hx
    subst hx
    simp only [List.dropWhile_cons] at hd
    by_cases hp : pyIsSpace y = true
    · rw [if_pos hp] at hd
      have := dropWhile_length_le pyIsSpace ys
      have := congrArg List.length hd
      simp at this
      omega
    · simpa using hp

/-- A string whose head and last characters are not whitespace strips to
itself. -/
theorem pyStrip_eq_self (l : List Char)
    (h1 : ∀ x, l.head? = some x → pyIsSpace x = false)
    (h2 : ∀ x, l.getLast? = some x → pyIsSpace x = false) : pyStrip l = l := by
  unfold pyStrip
  rw [dropWhile_eq_self_of_head _ _ h1]
  have h3 : ∀ x, l.reverse.head? = some x → pyIsSpace x = false := by
    intro x hx
    rw [List.head?_reverse] at hx
    exact h2 x hx
  rw [dropWhile_eq_self_of_head _ _ h3, List.reverse_reverse]

/-- The last element of a list is a member. -/
theorem mem_of_getLast?_eq (l : List Char) (x : Char) (h : l.getLast? = some x) :
    x ∈ l := by
  induction l with
  | nil => simp at h
  | cons y ys ih =>
    cases ys with
    | nil =>
      simp [List.getLast?] at h
      simp [h]
    | cons z zs =>
      rw [List.getLast?_cons_cons] at h
      exact List.mem_cons_of_mem _ (ih h)

/-! ## C8: trailing segments do not matter -/

/-- Non-empty lists with equal two-element prefixes have the same head. -/
theorem headD_eq_of_take (xs ys : List (List Char)) (hx : xs ≠ []) (hy : ys ≠ [])
    (h : xs.take 2 = ys.take 2) : xs.headD [] = ys.headD [] := by
  cases xs with
  | nil => exact absurd rfl hx
  | cons a as =>
    cases ys with
    | nil => exact absurd rfl hy
    | cons b bs =>
      simp [List.take] at h
      simp [h.1]

/-- The `.post` extension only looks at the first two chunks. -/
theorem postPart_eq_of_take :
    ∀ (xs ys : List (List Char)), xs.take 2 = ys.take 2 → postPart xs = postPart ys
  | [], [], _ => rfl
  | [], _ :: _, h => by simp at h
  | _ :: _, [], h => by simp at h
  | [_], [_], _ => rfl
  | [a], _ :: _ :: _, h => by simp [List.take] at h
  | _ :: _ :: _, [b], h => by simp [List.take] at h
  | a :: a2 :: t, b :: b2 :: t2, h => by
    simp [List.take] at h
    simp [postPart, h.2]

/-- C8: every field of a parse result except `describe` depends only on the
first two `'-'`-separated segments of the stripped input: inputs whose
splits agree on the first two chunks parse to the same result (and fail
with the same error) once the `describe` echo is discarded. -/
theorem parse_ignores_trailing_segments (l1 l2 : List Char)
    (h : (pySplitChar '-' (pyStrip l1)).take 2 = (pySplitChar '-' (pyStrip l2)).take 2) :
    Except.map eraseDescribe (parseCore l1) = Except.map eraseDescribe (parseCore l2) := by
  have hhead := headD_eq_of_take _ _ (pySplitChar_ne_nil '-' (pyStrip l1))
    (pySplitChar_ne_nil '-' (pyStrip l2)) h
  have hpost := postPart_eq_of_take _ _ h
  unfold parseCore
  rw [hhead, hpost]
  cases hp : parseTag ((pySplitChar '-' (pyStrip l2)).headD []) with
  | error e => rfl
  | ok val =>
    obtain ⟨maj, mnr, pat, sfx⟩ := val
    rfl

/-- Witness: a changed abbreviated commit id does not change the parse. -/
theorem parse_ignores_trailing_segments_witness :
    Except.map eraseDescribe (parseCore "1.2.3-4-aaa".data)
      = Except.map eraseDescribe (parseCore "1.2.3-4-bbb".data) :=
  parse_ignores_trailing_segments "1.2.3-4-aaa".data "1.2.3-4-bbb".data (by decide)

/-! ## C9: the commits-since-tag segment is not validated -/

/-- C9: for a valid bare tag `t` (it parses, and both `describe` and `tag`
echo it unchanged) and any non-empty segment `s` without dashes or
whitespace, `t-s` parses without raising and the suffix becomes the tag's
suffix followed by `.post` and the segment verbatim, numeric or not. -/
theorem parse_post_unvalidated (t s : List Char) (info : VersionInfo)
    (h1 : parseCore t = .ok info) (h2 : info.describe = t) (h3 : info.tag = t)
    (h4 : s ≠ []) (h5 : ∀ c ∈ s, ¬c = '-' ∧ pyIsSpace c = false) :
    ∃ info2, parseCore (t ++ '-' :: s) = .ok info2 ∧
      info2.tag_version_suffix = info.tag_version_suffix ++ ".post".data ++ s := by
  obtain ⟨maj, mnr, pat, sfx, htag, hinfo⟩ := parseCore_ok t info h1
  have hstrip : pyStrip t = t := by
    rw [hinfo] at h2
    exact h2
  rw [hstrip] at htag hinfo
  have hhead : (pySplitChar '-' t).headD [] = t := by
    rw [hinfo] at h3
    exact h3
  rw [hhead] at htag
  have hnosep : '-' ∉ t := not_mem_of_headD_split '-' t hhead
  have hsplit_t : pySplitChar '-' t = [t] := pySplitChar_no_sep '-' t hnosep
  have ht_ne : t ≠ [] := by
    intro he
    subst he
    rw [show parseTag ([] : List Char)
        = .error ⟨"A version tag must at least contain two dots.".data, []⟩ from rfl] at htag
    exact Except.noConfusion htag
  have hns_head := head_not_space_of_strip t hstrip
  have hnosep_s : '-' ∉ s := by
    intro hm
    exact absurd rfl (h5 '-' hm).1
  have hstrip2 : pyStrip (t ++ '-' :: s) = t ++ '-' :: s := by
    apply pyStrip_eq_self
    · intro x hx
      rw [List.head?_append_of_ne_nil t ht_ne] at hx
      exact hns_head x hx
    · intro x hx
      rw [List.getLast?_append_cons] at hx
      cases s with
      | nil => exact absurd rfl h4
      | cons y ys =>
        rw [List.getLast?_cons_cons] at hx
        exact (h5 x (mem_of_getLast?_eq _ _ hx)).2
  have hsplit2 : pySplitChar '-' (t ++ '-' :: s) = [t, s] := by
    rw [pySplitChar_append '-' t s hnosep, pySplitChar_no_sep '-' s hnosep_s]
  rw [hhead, hsplit_t] at hinfo
  refine ⟨mkVersionInfo (t ++ '-' :: s) t maj mnr pat (sfx ++ postPart [t, s]), ?_, ?_⟩
  · unfold parseCore
    rw [hstrip2, hsplit2]
    rw [show ([t, s] : List (List Char)).headD [] = t from rfl, htag]
  · rw [hinfo]
    simp [mkVersionInfo, postPart, List.append_assoc]

/-- Witness: a non-numeric segment after the tag `1.2.3`. -/
theorem parse_post_unvalidated_witness :
    ∃ info2, parseCore ("1.2.3".data ++ '-' :: "foo".data) = .ok info2 ∧
      info2.tag_version_suffix = [] ++ ".post".data ++ "foo".data :=
  parse_post_unvalidated "1.2.3".data "foo".data
    { describe := "1.2.3".data, tag := "1.2.3".data, tag_version := "1.2.3".data,
      tag_soversion := "1.2".data, tag_version_major := "1".data,
      tag_version_minor := "2".data, tag_version_patch := "3".data,
      tag_version_suffix := [], tag_stable := true, tag_test := false,
      tag_dev := false, tag_release := true, deploy_label := some "main".data }
    (by decide) (by decide) (by decide) (by decide) (by decide)

/-- C5: `need_deployment` returns true exactly when the configuration flag
for the requested kind (`deploy_binary` for binary, `deploy_noarch`
otherwise) is enabled and the current deploy label is a member of the
allowed label list; in every other case it returns false. -/
theorem need_deployment_iff (ctx : DeployCtx) (binary : Bool)
    (deploy_labels : List (List Char)) :
    need_deployment ctx binary deploy_labels = true ↔
      ((if binary then ctx.deploy_binary else ctx.deploy_noarch) = true ∧
        labelMem ctx.deploy_label deploy_labels = true) := by
  cases binary <;> cases hb : ctx.deploy_binary <;> cases hn : ctx.deploy_noarch <;>
    cases hl : labelMem ctx.deploy_label deploy_labels <;>
      simp [need_deployment, hb, hn, hl]

/-- Witness: with the binary flag on and a matching label, deployment is
needed. -/
theorem need_deployment_iff_witness :
    need_deployment ⟨true, false, some "foo".data⟩ true ["foo".data, "bar".data] = true :=
  (need_deployment_iff ⟨true, false, some "foo".data⟩ true ["foo".data, "bar".data]).mpr
    (by constructor <;> decide)

/-! ## C6: package defaults in configuration finalization -/

/-- C6 counterexample: finalizing a package whose `tools` key is missing
leaves the key missing — it is not defaulted to the empty list (and no tool
validation or absolute-path computation happens in `_finalize`). -/
theorem finalize_tools_not_defaulted :
    (finalizePackages "proj".data [⟨none, none, none⟩]).map RawPackage.tools ≠ [some []] := by
  decide

/-- C6 (amended): configuration finalization defaults a missing package
`path` to `'.'` and a missing `name` to the project name, keeps values that
are present, and leaves the `tools` field exactly as it was. -/
theorem finalize_package_defaults (projectName : List Char) (packages : List RawPackage)
    (i : Nat) (h : i < packages.length) :
    ((finalizePackages projectName packages).getD i default).path
        = some ((packages.getD i default).path.getD ['.']) ∧
    ((finalizePackages projectName packages).getD i default).name
        = some ((packages.getD i default).name.getD projectName) ∧
    ((finalizePackages projectName packages).getD i default).tools
        = (packages.getD i default).tools := by
  have hlen : i < (finalizePackages projectName packages).length := by
    simpa [finalizePackages] using h
  rw [List.getD_eq_getElem _ _ hlen, List.getD_eq_getElem _ _ h]
  simp only [finalizePackages, List.getElem_map]
  set q := packages[i] with hq
  clear_value q
  obtain ⟨pp, pn, pt⟩ := q
  cases pp <;> cases pn <;> simp [finalizePackage]

/-- Witness: a package with a missing path and a present name. -/
theorem finalize_package_defaults_witness :
    ((finalizePackages "proj".data [⟨none, some "x".data, none⟩]).getD 0 default).path
        = some ((([⟨none, some "x".data, none⟩] : List RawPackage).getD 0 default).path.getD ['.']) ∧
    ((finalizePackages "proj".data [⟨none, some "x".data, none⟩]).getD 0 default).name
        = some ((([⟨none, some "x".data, none⟩] : List RawPackage).getD 0 default).name.getD "proj".data) ∧
    ((finalizePackages "proj".data [⟨none, some "x".data, none⟩]).getD 0 default).tools
        = (([⟨none, some "x".data, none⟩] : List RawPackage).getD 0 default).tools :=
  finalize_package_defaults "proj".data [⟨none, some "x".data, none⟩] 0 (by decide)

/-! ## C7 and C10: the requirement hash -/

/-- Every character produced by `hexDigit` is a lowercase hex digit. -/
theorem isHexChar_hexDigit (n : Nat) : isHexChar (hexDigit n) = true := by
  unfold hexDigit
  split <;> rfl

/-- `wordToHex` always yields eight characters. -/
theorem wordToHex_length (w : Nat) : (wordToHex w).length = 8 := rfl

/-- Every character of `wordToHex` is a hex digit. -/
theorem mem_wordToHex (w : Nat) (c : Char) (hc : c ∈ wordToHex w) : isHexChar c = true := by
  simp [wordToHex] at hc
  rcases hc with rfl | rfl | rfl | rfl | rfl | rfl | rfl | rfl <;> exact isHexChar_hexDigit _

/-- A UTF-8 encoded character is at least one byte. -/
theorem utf8Encode_ne_nil (c : Char) : utf8Encode c ≠ [] := by
  unfold utf8Encode
  split_ifs <;> simp

/-- A non-empty string encodes to a non-empty byte list. -/
theorem encodeStr_pos (x : List Char) (h : x ≠ []) : 0 < (encodeStr x).length := by
  cases x with
  | nil => exact absurd rfl h
  | cons c rest =>
    simp only [encodeStr, List.map_cons, List.flatten_cons, List.length_append]
    have := utf8Encode_ne_nil c
    cases hu : utf8Encode c with
    | nil => exact absurd hu this
    | cons b bs => simp [hu]

/-- C7 counterexample: adding the empty string to the pip package list feeds
the identical byte stream to the hasher, so the digest is unchanged. -/
theorem req_hash_empty_addition :
    compute_req_hash ["conda".data] [[FsEntry.file [1, 2, 3]]] ["codecov".data, []]
      = compute_req_hash ["conda".data] [[FsEntry.file [1, 2, 3]]] ["codecov".data] := by
  unfold compute_req_hash
  exact congrArg sha256hex (by decide)

/-- C7 (amended): the digest is always 64 lowercase hexadecimal characters;
adding an element that contributes at least one byte (a non-empty package
string, or a non-empty file in a recipe directory) changes the byte stream
fed to SHA-256; an element contributing no bytes (such as the empty string)
leaves the digest unchanged.  (The function is trivially deterministic: it
is a pure function of the package lists and directory contents.) -/
theorem compute_req_hash_properties :
    (∀ (a : List (List Char)) (r : List (List FsEntry)) (p : List (List Char)),
      (compute_req_hash a r p).length = 64 ∧
      ∀ c ∈ compute_req_hash a r p, isHexChar c = true) ∧
    (∀ (a : List (List Char)) (r : List (List FsEntry)) (p : List (List Char))
      (x : List Char), x ≠ [] →
      reqStream a r (p ++ [x]) ≠ reqStream a r p ∧
      reqStream (a ++ [x]) r p ≠ reqStream a r p) ∧
    (∀ (a p : List (List Char)) (dirs1 dirs2 : List (List FsEntry))
      (pre post : List FsEntry) (bs : List Nat), bs ≠ [] →
      reqStream a (dirs1 ++ (pre ++ FsEntry.file bs :: post) :: dirs2) p ≠
        reqStream a (dirs1 ++ (pre ++ post) :: dirs2) p) ∧
    (∀ (a : List (List Char)) (r : List (List FsEntry)) (p : List (List Char)),
      compute_req_hash a r (p ++ [[]]) = compute_req_hash a r p) := by
  refine ⟨?_, ?_, ?_, ?_⟩
  · intro a r p
    constructor
    · simp [compute_req_hash, sha256hex, List.length_append, wordToHex_length]
    · intro c hc
      simp only [compute_req_hash, sha256hex, List.mem_append] at hc
      rcases hc with ((((((h | h) | h) | h) | h) | h) | h) | h <;>
        exact mem_wordToHex _ c h
  · intro a r p x hx
    have hpos := encodeStr_pos x hx
    constructor
    · intro heq
      have h2 := congrArg List.length heq
      simp only [reqStream, List.map_append, List.flatten_append, List.map_cons,
        List.map_nil, List.flatten_cons, List.flatten_nil, List.append_nil,
        List.length_append] at h2
      omega
    · intro heq
      have h2 := congrArg List.length heq
      simp only [reqStream, List.map_append, List.flatten_append, List.map_cons,
        List.map_nil, List.flatten_cons, List.flatten_nil, List.append_nil,
        List.length_append] at h2
      omega
  · intro a p dirs1 dirs2 pre post bs hbs
    have hpos : 0 < bs.length := by
      cases bs with
      | nil => exact absurd rfl hbs
      | cons b l => simp
    intro heq
    have h2 := congrArg List.length heq
    simp only [reqStream, dirBytes, entryBytes, List.map_append, List.flatten_append,
      List.map_cons, List.map_nil, List.flatten_cons, List.flatten_nil,
      List.append_nil, List.length_append] at h2
    omega
  · intro a r p
    unfold compute_req_hash
    congr 1
    simp [reqStream, encodeStr]

/-- Witness: adding the one-character package `"1"` changes the stream. -/
theorem compute_req_hash_properties_witness :
    reqStream ["conda".data] [] (["codecov".data] ++ ["1".data])
      ≠ reqStream ["conda".data] [] ["codecov".data] :=
  (compute_req_hash_properties.2.1 ["conda".data] [] ["codecov".data] "1".data
    (by decide)).1

/-- C10: only regular files directly inside a recipe directory are hashed: a
non-file glob entry (such as a subdirectory) contributes nothing, so the
digest is unchanged. -/
theorem req_hash_ignores_nonfiles (conda_packages : List (List Char))
    (pip_packages : List (List Char)) (dirs1 dirs2 : List (List FsEntry))
    (pre post : List FsEntry) :
    compute_req_hash conda_packages (dirs1 ++ (pre ++ FsEntry.nonfile :: post) :: dirs2)
        pip_packages
      = compute_req_hash conda_packages (dirs1 ++ (pre ++ post) :: dirs2) pip_packages := by
  unfold compute_req_hash
  congr 1
  simp [reqStream, dirBytes, entryBytes]

/-! ## C1: the task graph executes each task at most once -/

/-- C1: every run of the roberto task graph succeeds with an execution order
that contains no task twice, in which every prerequisite completes before
its dependent's body begins, and which contains the requested task;
moreover re-requesting an already completed task is a no-op of the
scheduler. -/
theorem tasks_at_most_once :
    (∀ t : RoTask, (roRun t).isSome = true ∧
      ((roRun t).getD []).Nodup ∧
      execOrderOk [] ((roRun t).getD []) = true ∧
      t ∈ (roRun t).getD []) ∧
    (∀ (g : RoTask → List RoTask) (fuel : Nat) (visiting done : List RoTask) (t : RoTask),
      t ∈ done → schedule g (fuel + 1) visiting done t = some done) := by
  constructor
  · decide
  · intro g fuel visiting done t h
    simp [schedule, h]

/-- Witness: a completed task is re-requested as a no-op. -/
theorem tasks_at_most_once_witness :
    schedule roPrereqs (4 + 1) [] [RoTask.write_version] RoTask.write_version
      = some [RoTask.write_version] :=
  tasks_at_most_once.2 roPrereqs 4 [] [RoTask.write_version] RoTask.write_version
    (by decide)

end Roberto
